import Mathlib

/-!
Verification of the hybrid-search core of the climate-tech discovery backend.

Shallow embedding of the Python sources under `src/src/search/` into Lean:
pure functions become Lean functions, the orchestrator's mutable fields become
explicit state passing, numeric scores (Python floats) are modelled as exact
rationals, Python dicts holding optional keys become structures of `Option`
fields, and the external collaborators (sentence-transformer embedder, the
faiss library index, the rank_bm25 model, the sqlite record store) are
parameters ("oracles") of the model, as they are not part of this repository.
-/

namespace ClimateSearch

/-! ## Python-style string primitives

Python string operations used by the search code: `str.lower`,
substring containment (the `in` operator), whitespace splitting.
Strings are handled as lists of characters; lowercasing is ASCII
(all the taxonomy/config strings involved are ASCII).
-/

/-- Python `str.lower()` on a character list (ASCII). -/
def lowerL (s : List Char) : List Char := s.map Char.toLower

/-- Does `hay` start with `need`?  (Helper for the substring test.) -/
def leadsWith : List Char → List Char → Bool
  | _, [] => true
  | [], _ :: _ => false
  | c :: hay, d :: need => c == d && leadsWith hay need

/-- Python `need in hay` substring containment on character lists.
The empty needle occurs in everything, as in Python. -/
def occursIn (need : List Char) : List Char → Bool
  | [] => leadsWith [] need
  | c :: hay => leadsWith (c :: hay) need || occursIn need hay

/-- Python truthiness-driven `a or b` on optional strings:
`None` and the empty string are falsy. -/
def pyOrS (a b : Option String) : Option String :=
  match a with
  | some v => if v = "" then b else some v
  | none => b

/-- Python truthiness-driven `a or b` on optional integers: `None` and `0` are falsy. -/
def pyOrI (a b : Option Int) : Option Int :=
  match a with
  | some v => if v = 0 then b else some v
  | none => b

/-- Python truthiness-driven `a or b` on optional numbers: `None` and `0.0` are falsy. -/
def pyOrQ (a b : Option ℚ) : Option ℚ :=
  match a with
  | some v => if v = 0 then b else some v
  | none => b

/-- Resolve an optional numeric argument against a default, with Python
falsiness: `x or default` where both `None` and `0` fall back. -/
def resolveOpt (o : Option Nat) (d : Nat) : Nat :=
  match o with
  | some n => if n = 0 then d else n
  | none => d

/-! ## Data model

A `Startup` mirrors the record-store row dictionaries: the fields the search
core reads, with `Option` for keys that may be absent / `NULL`. -/

structure Startup where
  id : Int
  name : String := ""
  short_description : String := ""
  long_description : String := ""
  founded_year : Option Int := none
  total_funding_usd : Option ℚ := none
  primary_vertical : Option String := none
  technologies : List String := []
  keywords : List String := []
  headquarters_location : String := ""
  deriving DecidableEq

/-- One element of the orchestrator's `results` list: `{"startup": ..., "score": ...}`. -/
structure Hit where
  startup : Startup
  score : ℚ
  deriving DecidableEq

/-- A taxonomy vertical `{id, name, keywords}` as consumed by `QueryProcessor`. -/
structure Vertical where
  id : String
  name : String
  keywords : List String
  deriving DecidableEq

/-- The dictionary returned by `QueryProcessor.extract_filters`: every key is
optional (a pattern that does not match simply omits the key). -/
structure ExtractedFilters where
  founded_year_min : Option Int := none
  founded_year_max : Option Int := none
  location : Option String := none
  min_funding_usd : Option ℚ := none
  vertical_filter : Option String := none
  deriving DecidableEq

/-- The four filter values actually applied by `HybridSearch.search` after the
explicit/implicit merge (and echoed as `filters_applied`). -/
structure MergedFilters where
  vertical : Option String
  founded_year_min : Option Int
  founded_year_max : Option Int
  min_funding_usd : Option ℚ
  deriving DecidableEq

/-- The caller-supplied arguments of `HybridSearch.search`. -/
structure SearchArgs where
  query : String
  top_k : Option Nat := none
  vertical_filter : Option String := none
  founded_year_min : Option Int := none
  founded_year_max : Option Int := none
  min_funding_usd : Option ℚ := none
  enable_diversity : Bool := true
  enable_query_expansion : Bool := true

/-! ## Filter merge (hybrid_search.py lines 154-158)

```
vertical_filter = vertical_filter or extracted_filters.get("vertical_filter")
founded_year_min = founded_year_min or extracted_filters.get("founded_year_min")
founded_year_max = founded_year_max or extracted_filters.get("founded_year_max")
min_funding_usd = min_funding_usd or extracted_filters.get("min_funding_usd")
```
-/

def mergeFilters (args : SearchArgs) (extracted : ExtractedFilters) : MergedFilters where
  vertical := pyOrS args.vertical_filter extracted.vertical_filter
  founded_year_min := pyOrI args.founded_year_min extracted.founded_year_min
  founded_year_max := pyOrI args.founded_year_max extracted.founded_year_max
  min_funding_usd := pyOrQ args.min_funding_usd extracted.min_funding_usd

/-! ## Post-fusion filtering (hybrid_search.py lines 193-203)

Each guard is `if <filter truthy> and <condition on startup>: continue`;
missing startup attributes are substituted by Python `or` sentinels:
`founded_year or 0` for the lower year bound, `founded_year or 9999` for the
upper year bound, `total_funding_usd or 0` for the funding bound. -/

/-- `startup.get("founded_year") or 0`. -/
def yearOr0 (s : Startup) : Int :=
  match s.founded_year with
  | some y => if y = 0 then 0 else y
  | none => 0

/-- `startup.get("founded_year") or 9999` (a stored year of `0` is falsy too). -/
def yearOr9999 (s : Startup) : Int :=
  match s.founded_year with
  | some y => if y = 0 then 9999 else y
  | none => 9999

/-- `startup.get("total_funding_usd") or 0`. -/
def fundingOr0 (s : Startup) : ℚ :=
  match s.total_funding_usd with
  | some f => if f = 0 then 0 else f
  | none => 0

/-- The filter block of `HybridSearch.search`: `true` iff the startup survives
all four `continue` guards. -/
def passesFilters (m : MergedFilters) (s : Startup) : Bool :=
  (match m.vertical with
   | some v => if v = "" then true else s.primary_vertical == some v
   | none => true) &&
  (match m.founded_year_min with
   | some n => if n = 0 then true else decide (n ≤ yearOr0 s)
   | none => true) &&
  (match m.founded_year_max with
   | some n => if n = 0 then true else decide (yearOr9999 s ≤ n)
   | none => true) &&
  (match m.min_funding_usd with
   | some q => if q = 0 then true else decide (q ≤ fundingOr0 s)
   | none => true)

/-! ## QueryProcessor (query_processor.py)

The processor's construction-time state is the taxonomy: the synonym map
`query_synonyms` (an ordered association of canonical term to synonyms, as
Python dicts iterate in insertion order) and the ordered vertical list. -/

/-- Python whitespace for `str.split()` / `\s` (ASCII). -/
def isWs (c : Char) : Bool :=
  c == ' ' || c == '\t' || c == '\n' || c == '\r' || c == '\x0b' || c == '\x0c'

/-- Python word character for `\w` (ASCII scope): letters, digits, underscore. -/
def isWordChar (c : Char) : Bool :=
  c.isAlpha || c.isDigit || c == '_'

/-- Worker for `query.split()`: `cur` is the (reversed) non-whitespace run
being accumulated. -/
def pySplitWsGo : List Char → List Char → List (List Char)
  | [], cur => if cur = [] then [] else [cur.reverse]
  | c :: rest, cur =>
    if isWs c then
      if cur = [] then pySplitWsGo rest [] else cur.reverse :: pySplitWsGo rest []
    else pySplitWsGo rest (c :: cur)

/-- `query.split()`: split on whitespace runs, dropping empty pieces. -/
def pySplitWs (s : List Char) : List (List Char) :=
  pySplitWsGo s []

/-- Join pieces with single spaces: `" ".join(...)`. -/
def joinSpaces : List (List Char) → List Char
  | [] => []
  | [p] => p
  | p :: q :: rest => p ++ ' ' :: joinSpaces (q :: rest)

/-- Python `str.strip()` (ASCII whitespace). -/
def pyStrip (s : List Char) : List Char :=
  ((s.dropWhile isWs).reverse.dropWhile isWs).reverse

/-- `QueryProcessor.clean_query`: collapse whitespace, then drop every
character that is not a word character, whitespace or a hyphen
(`re.sub(r"[^\w\s\-]", "", query)`), then strip. -/
def clean_query (query : String) : String :=
  let collapsed := joinSpaces (pySplitWs query.data)
  let kept := collapsed.filter (fun c => isWordChar c || isWs c || c == '-')
  String.mk (pyStrip kept)

/-- Does any keyword of the vertical occur in the lowercased query? -/
def kwMatch (v : Vertical) (ql : List Char) : Bool :=
  v.keywords.any (fun kw => occursIn (lowerL kw.data) ql)

/-- The vertical-detection loop of `QueryProcessor.extract_filters`
(query_processor.py lines 116-126), over the lowercased query.  A display-name
match sets the filter and exits the whole loop; a keyword match sets the
filter but — because the `break` only leaves the inner keyword loop — the
outer loop continues with the next vertical.  `acc` is the current value of
`filters.get("vertical_filter")`. -/
def extractVerticalLoop (ql : List Char) : List Vertical → Option String → Option String
  | [], acc => acc
  | v :: rest, acc =>
    if occursIn (lowerL v.name.data) ql then some v.id
    else if kwMatch v ql then extractVerticalLoop ql rest (some v.id)
    else extractVerticalLoop ql rest acc

/-- The `vertical_filter` entry produced by `QueryProcessor.extract_filters`. -/
def extractVerticalFilter (verticals : List Vertical) (query : String) : Option String :=
  extractVerticalLoop (lowerL query.data) verticals none

/-- Modelled from the spec: "vertical: first taxonomy vertical whose display
name or any of its keywords occurs as a substring of the lowercased query,
checked in taxonomy iteration order; first match wins and short-circuits
further vertical checks."  Stated for comparison with the source-derived
`extractVerticalFilter`. -/
def specFirstMatchVertical (verticals : List Vertical) (query : String) : Option String :=
  let ql := lowerL query.data
  (verticals.find? (fun v => occursIn (lowerL v.name.data) ql || kwMatch v ql)).map Vertical.id

/-! ### Query expansion (query_processor.py lines 36-68)

`expanded_terms` is a Python `set`; it is modelled as a duplicate-free list in
insertion order.  Membership of the final set is faithful; the *iteration
order* of a Python string set is unspecified, so no theorem below relies on
the order of the model's tail. -/

/-- Add to the set: `set.add(x)`. -/
def setInsert (s : List String) (x : String) : List String :=
  if x ∈ s then s else s ++ [x]

/-- Add many: `set.update(xs)`. -/
def setUnion (s : List String) (xs : List String) : List String :=
  xs.foldl setInsert s

/-- One iteration of the synonym loop for the pair `(term, synonyms)`:
if the canonical term occurs in the query add all its synonyms, and for each
synonym occurring in the query add the canonical term back. -/
def expandSynStep (ql : List Char) (acc : List String) (p : String × List String) : List String :=
  let acc1 := if occursIn (lowerL p.1.data) ql then setUnion acc p.2 else acc
  p.2.foldl (fun a syn => if occursIn (lowerL syn.data) ql then setInsert a p.1 else a) acc1

/-- One iteration of the vertical-keyword loop: on the first keyword of the
vertical occurring in the query, add the vertical's first three keywords and
stop scanning this vertical's keywords. -/
def expandVertStep (ql : List Char) (acc : List String) (v : Vertical) : List String :=
  match v.keywords.find? (fun kw => occursIn (lowerL kw.data) ql) with
  | some _ => setUnion acc (v.keywords.take 3)
  | none => acc

/-- `QueryProcessor.expand_query` as the list of terms that are joined with
spaces: the original query first (`expanded_terms.discard(query)` followed by
`[query] + list(expanded_terms)`), then the remaining set elements.  The tail
order of this model is the insertion order of the set model; the source's set
iteration order is unspecified. -/
def expand_terms (syns : List (String × List String)) (verticals : List Vertical)
    (query : String) : List String :=
  let ql := lowerL query.data
  let terms := [query]
  let terms := syns.foldl (expandSynStep ql) terms
  let terms := verticals.foldl (expandVertStep ql) terms
  query :: terms.filter (fun t => t ≠ query)

/-- The string returned by `expand_query`: `" ".join(result)`. -/
def expand_query (syns : List (String × List String)) (verticals : List Vertical)
    (query : String) : String :=
  String.intercalate " " (expand_terms syns verticals query)

/-! ### Fusion weight (query_processor.py lines 151-179) -/

def conceptual_indicators : List String :=
  ["like", "similar", "related", "alternative", "comparable",
   "technology for", "solutions for", "companies doing",
   "startups working on", "focused on"]

def specific_indicators : List String :=
  ["named", "called", "exact", "specifically"]

/-- `QueryProcessor.get_query_vector_weight`: 0.7 on a conceptual indicator,
else 0.4 on a specific indicator, else the default 0.6. -/
def get_query_vector_weight (query : String) : ℚ :=
  let ql := lowerL query.data
  if conceptual_indicators.any (fun i => occursIn i.data ql) then 7/10
  else if specific_indicators.any (fun i => occursIn i.data ql) then 2/5
  else 3/5

/-! ## Reciprocal Rank Fusion (hybrid_search.py lines 93-125)

`rrf_scores` is a `defaultdict(float)`; it is modelled as an association list
in key-insertion order (Python dicts preserve insertion order), with
`upsert` implementing `rrf_scores[startup_id] += delta`.  Scores are exact
rationals in place of Python floats. -/

/-- `scores[id] += delta` on an insertion-ordered association list
(a missing key starts at 0 and is appended at the end). -/
def upsert : List (Int × ℚ) → Int → ℚ → List (Int × ℚ)
  | [], id, delta => [(id, delta)]
  | (i, v) :: rest, id, delta =>
    if i = id then (i, v + delta) :: rest else (i, v) :: upsert rest id delta

/-- One weighted contribution pass:
`for rank, (startup_id, _) in enumerate(ranked): scores[startup_id] += w / (k + rank + 1)`.
`rank` carries the running value of `enumerate`. -/
def addRanked (w : ℚ) (k : Nat) : List (Int × ℚ) → Nat → List (Int × ℚ) → List (Int × ℚ)
  | scores, _, [] => scores
  | scores, rank, (id, _) :: rest =>
    addRanked w k (upsert scores id (w / ((k : ℚ) + (rank : ℚ) + 1))) (rank + 1) rest

/-- Sort key `lambda x: x[1]` descending: `a` precedes `b` when `b.2 ≤ a.2`. -/
def scoreDesc (a b : Int × ℚ) : Prop := b.2 ≤ a.2

instance : DecidableRel scoreDesc := fun a b => inferInstanceAs (Decidable (b.2 ≤ a.2))

instance : IsTotal (Int × ℚ) scoreDesc := ⟨fun a b => le_total b.2 a.2⟩

instance : IsTrans (Int × ℚ) scoreDesc := ⟨fun _ _ _ h1 h2 => le_trans h2 h1⟩

/-- `HybridSearch._reciprocal_rank_fusion`: weighted semantic pass, weighted
keyword pass, then `sorted(..., key=lambda x: x[1], reverse=True)`.  The
weight argument is the value the method reads from `self.semantic_weight`. -/
def reciprocal_rank_fusion (w : ℚ) (semantic_results keyword_results : List (Int × ℚ))
    (k : Nat := 60) : List (Int × ℚ) :=
  let scores := addRanked w k [] 0 semantic_results
  let scores := addRanked (1 - w) k scores 0 keyword_results
  scores.insertionSort scoreDesc

/-- Modelled from the spec: the per-list RRF contribution
`Σ 1/(k + rank + 1)` over the 0-indexed occurrences of `id` in the ranked id
list, starting the rank count at `n`. -/
def specContribFrom (k : Nat) (id : Int) : Nat → List Int → ℚ
  | _, [] => 0
  | n, i :: rest =>
    (if i = id then 1 / ((k : ℚ) + (n : ℚ) + 1) else 0) + specContribFrom k id (n + 1) rest

/-- Modelled from the spec:
`fused_score(id) = w · Σ 1/(k + rank_semantic + 1) + (1−w) · Σ 1/(k + rank_keyword + 1)`. -/
def specFusedScore (w : ℚ) (k : Nat) (semIds kwIds : List Int) (id : Int) : ℚ :=
  w * specContribFrom k id 0 semIds + (1 - w) * specContribFrom k id 0 kwIds

/-- Score of `id` in the association-list accumulator (0 when absent,
matching `defaultdict(float)`). -/
def getScore : List (Int × ℚ) → Int → ℚ
  | [], _ => 0
  | (i, v) :: rest, id => if i = id then v else getScore rest id

/-- The association list has pairwise-distinct keys (as a Python dict does). -/
def keysNodup (scores : List (Int × ℚ)) : Prop :=
  (scores.map Prod.fst).Nodup


/-! ## FAISS index manager (faiss_manager.py)

The faiss library itself is external; a built `IndexFlatIP` is modelled as its
vector count plus an oracle answering `index.search(query, k)` with
(row index, score) pairs.  Row indices are `Int` because faiss pads missing
neighbours with `-1`. -/

structure FaissIndex where
  ntotal : Nat
  run : List ℚ → Nat → List (Int × ℚ)

structure FaissState where
  index : Option FaissIndex
  startup_ids : List Int

/-- `FaissManager.build_index`: with no embeddings the method returns leaving
the state untouched; otherwise the new index replaces the old and the id
mapping is stored.  `mk` stands for the faiss index construction. -/
def faissBuild (st : FaissState) (embeddings : List (List ℚ)) (ids : List Int)
    (mk : List (List ℚ) → List ℚ → Nat → List (Int × ℚ)) : FaissState :=
  if embeddings.length = 0 then st
  else { index := some ⟨embeddings.length, mk embeddings⟩, startup_ids := ids }

/-- `FaissManager.search`: empty/unbuilt guard, `k = min(top_k, ntotal)`,
then map row indices through `startup_ids`, dropping out-of-range rows. -/
def faissSearch (st : FaissState) (query_embedding : List ℚ) (top_k : Nat) :
    List (Int × ℚ) :=
  match st.index with
  | none => []
  | some ix =>
    if ix.ntotal = 0 then []
    else
      ((ix.run query_embedding (min top_k ix.ntotal)).filter
          (fun p => decide (0 ≤ p.1) && decide (p.1 < (st.startup_ids.length : Int)))).map
        (fun p => (st.startup_ids.getD p.1.toNat 0, p.2))

/-! ## BM25 engine (bm25_engine.py)

The `rank_bm25.BM25Okapi` model is external; it is an oracle from the query
tokens to the per-document score list.  The tokenizer is embedded:
`re.findall(r"\b[a-z0-9]+\b", text.lower())` keeps maximal `[a-z0-9]` runs
whose neighbouring characters are word boundaries — after lowercasing, a run
fails the boundary test exactly when it touches an underscore (ASCII scope) —
then drops 1-character tokens and stopwords. -/

def bm25_stopwords : List String :=
  ["a", "an", "the", "is", "are", "was", "were", "be", "been",
   "being", "have", "has", "had", "do", "does", "did", "will",
   "would", "could", "should", "may", "might", "must", "shall",
   "can", "need", "dare", "ought", "used", "to", "of", "in",
   "for", "on", "with", "at", "by", "from", "as", "into",
   "through", "during", "before", "after", "above", "below",
   "between", "under", "again", "further", "then", "once",
   "and", "but", "or", "nor", "so", "yet", "both", "either",
   "neither", "not", "only", "own", "same", "than", "too",
   "very", "just", "also", "now", "here", "there", "when",
   "where", "why", "how", "all", "each", "every", "both",
   "few", "more", "most", "other", "some", "such", "no",
   "any", "its", "it", "this", "that", "these", "those"]

/-- A lowercase-alphanumeric character, the token alphabet `[a-z0-9]`. -/
def isTokChar (c : Char) : Bool :=
  c.isDigit || ('a' ≤ c && c ≤ 'z')

/-- Extract the `\b[a-z0-9]+\b` matches: `cur` is the reversed run being
accumulated and `curOk` records that the character before the run was a word
boundary (not an underscore); a run is emitted when the character that ends it
is a boundary as well. -/
def tokenRuns : List Char → List Char → Bool → List (List Char)
  | [], cur, curOk =>
    if cur ≠ [] && curOk then [cur.reverse] else []
  | c :: rest, cur, curOk =>
    if isTokChar c then tokenRuns rest (c :: cur) curOk
    else
      (if cur ≠ [] && curOk && c ≠ '_' then [cur.reverse] else []) ++
        tokenRuns rest [] (c ≠ '_')

/-- `BM25Engine._tokenize`. -/
def bm25Tokenize (text : String) : List String :=
  let runs := tokenRuns (lowerL text.data) [] true
  (runs.map String.mk).filter (fun t => 1 < t.length && t ∉ bm25_stopwords)

/-- `BM25Engine._prepare_document`: concatenate the text fields (dropping
falsy entries, i.e. missing or empty ones), the technologies and the
keywords, join with spaces, tokenize. -/
def prepareDocument (s : Startup) : List String :=
  let base := [s.name, s.short_description, s.long_description,
               (match s.primary_vertical with | some v => v | none => ""),
               s.headquarters_location]
  let parts := base ++ s.technologies ++ s.keywords
  bm25Tokenize (String.intercalate " " (parts.filter (fun p => p ≠ "")))

structure BM25State where
  bm25 : Option (List String → List ℚ)
  startup_ids : List Int
  documents : List (List String)

/-- `BM25Engine.build_index`: re-derive `documents`/`startup_ids` (documents
with no tokens are skipped); the `BM25Okapi` model is only replaced when at
least one document has tokens (`if self.documents:`), otherwise the previous
model object is kept.  `mk` stands for `BM25Okapi(...)`. -/
def bm25Build (st : BM25State) (startups : List Startup)
    (mk : List (List String) → List String → List ℚ) : BM25State :=
  let pairs := startups.filterMap (fun s =>
    let tokens := prepareDocument s
    if tokens = [] then none else some (tokens, s.id))
  let docs := pairs.map Prod.fst
  let ids := pairs.map Prod.snd
  if docs = [] then { bm25 := st.bm25, startup_ids := ids, documents := docs }
  else { bm25 := some (mk docs), startup_ids := ids, documents := docs }

/-- Sort key for `(row, score)` pairs descending by score. -/
def rowScoreDesc (a b : Nat × ℚ) : Prop := b.2 ≤ a.2

instance : DecidableRel rowScoreDesc := fun a b => inferInstanceAs (Decidable (b.2 ≤ a.2))

instance : IsTotal (Nat × ℚ) rowScoreDesc := ⟨fun a b => le_total b.2 a.2⟩

instance : IsTrans (Nat × ℚ) rowScoreDesc := ⟨fun _ _ _ h1 h2 => le_trans h2 h1⟩

/-- `BM25Engine.search`: unbuilt/empty guard, empty-token guard, score all
documents, sort rows by score descending, take `top_k`, and keep positive
scores with in-range rows mapped through `startup_ids`. -/
def bm25Search (st : BM25State) (query : String) (top_k : Nat) : List (Int × ℚ) :=
  match st.bm25 with
  | none => []
  | some model =>
    if st.documents = [] then []
    else
      let query_tokens := bm25Tokenize query
      if query_tokens = [] then []
      else
        let scores := model query_tokens
        let indexed := (scores.enum).insertionSort rowScoreDesc
        ((indexed.take top_k).filter
            (fun p => decide (0 < p.2) && decide (p.1 < st.startup_ids.length))).map
          (fun p => (st.startup_ids.getD p.1 0, p.2))

/-! ## Result diversifier (diversifier.py)

`ResultDiversifier.diversify` groups hits by truthy `primary_vertical`
(a missing or empty vertical goes to the separate `no_vertical` list), then
runs round-robin rounds over the vertical buckets — capped at `max_per` each —
plus at most one `no_vertical` item per round (uncapped), then backfills from
the original order, and finally truncates to `total`. -/

/-- The bucket key of a hit: `vertical = startup.get("primary_vertical")`
followed by `if vertical:` — `None` and `""` are falsy. -/
def truthyVert (h : Hit) : Option String :=
  match h.startup.primary_vertical with
  | some v => if v = "" then none else some v
  | none => none

/-- Append a key if new, preserving first-occurrence order
(`defaultdict` key insertion order). -/
def insertKey (keys : List String) (v : String) : List String :=
  if v ∈ keys then keys else keys ++ [v]

/-- `list(by_vertical.keys())`: bucket keys in first-occurrence order. -/
def vertKeys (results : List Hit) : List String :=
  results.foldl (fun acc h =>
    match truthyVert h with
    | some v => insertKey acc v
    | none => acc) []

/-- `by_vertical[v]`: the hits of bucket `v`, in original order. -/
def bucketOf (results : List Hit) (v : String) : List Hit :=
  results.filter (fun h => truthyVert h == some v)

/-- `no_vertical`: hits without a truthy vertical, in original order. -/
def noVertOf (results : List Hit) : List Hit :=
  results.filter (fun h => truthyVert h == none)

/-- `vertical_counts[v] += 1`. -/
def bumpCount (counts : String → Nat) (v : String) : String → Nat :=
  fun x => if x = v then counts v + 1 else counts x

/-- The inner `for vertical in list(by_vertical.keys())` loop of one round:
skip buckets at their `max_per` cap, emit the next item of each remaining
bucket, and break out of the whole loop as soon as `total` items are emitted.
Returns the emitted list, the updated counts, and `added_this_round`. -/
def roundVerts (byV : String → List Hit) (maxPer total : Nat) :
    List String → List Hit × (String → Nat) × Bool → List Hit × (String → Nat) × Bool
  | [], st => st
  | v :: vs, (div, counts, added) =>
    if maxPer ≤ counts v then roundVerts byV maxPer total vs (div, counts, added)
    else
      match (byV v)[counts v]? with
      | none => roundVerts byV maxPer total vs (div, counts, added)
      | some h =>
        let div2 := div ++ [h]
        if total ≤ div2.length then (div2, bumpCount counts v, true)
        else roundVerts byV maxPer total vs (div2, bumpCount counts v, true)

/-- The `no_vertical` step of one round: emit `no_vertical[round_num]` when
the target is not reached and that index exists (no per-category cap). -/
def noVertStep (noV : List Hit) (total roundNum : Nat) (div : List Hit) (added : Bool) :
    List Hit × Bool :=
  if noV ≠ [] ∧ div.length < total then
    match noV[roundNum]? with
    | some h => (div ++ [h], true)
    | none => (div, added)
  else (div, added)

/-- The `while len(diversified) < total` round loop.  Each executed round
appends at least one item (otherwise the loop breaks), so `total + 1` units of
fuel are more than the loop can ever consume and the fuel never runs out. -/
def roundLoop (keys : List String) (byV : String → List Hit) (noV : List Hit)
    (maxPer total : Nat) : Nat → Nat → List Hit → (String → Nat) → List Hit
  | 0, _, div, _ => div
  | fuel + 1, roundNum, div, counts =>
    if div.length < total then
      let (div1, counts1, added1) := roundVerts byV maxPer total keys (div, counts, false)
      let (div2, added2) := noVertStep noV total roundNum div1 added1
      if added2 then roundLoop keys byV noV maxPer total fuel (roundNum + 1) div2 counts1
      else div2
    else div

/-- The first (round-robin) pass of `diversify`. -/
def firstPass (results : List Hit) (maxPer total : Nat) : List Hit :=
  roundLoop (vertKeys results) (bucketOf results) (noVertOf results) maxPer total
    (total + 1) 0 [] (fun _ => 0)

/-- The backfill loop: walk the original fused order, skipping already-used
startup ids, until `total` is reached. -/
def backfillGo (total : Nat) : List Hit → List Hit → List Int → List Hit
  | [], div, _ => div
  | r :: rs, div, used =>
    if total ≤ div.length then div
    else if r.startup.id ∈ used then backfillGo total rs div used
    else backfillGo total rs (div ++ [r]) (r.startup.id :: used)

/-- `ResultDiversifier.diversify`.  `total_results` and `max_per_vertical`
resolve through Python `or` against `len(results)` and the configured default
`max_results_per_vertical = 3` (the constructor default). -/
def diversify (results : List Hit) (total_results max_per_vertical : Option Nat) :
    List Hit :=
  if results = [] then results
  else
    let maxPer := resolveOpt max_per_vertical 3
    let total := resolveOpt total_results results.length
    let fp := firstPass results maxPer total
    let filled :=
      if fp.length < total then
        backfillGo total results fp (fp.map (fun h => h.startup.id))
      else fp
    filled.take total

/-- Count of hits carrying truthy vertical `v` in a list. -/
def countVert (l : List Hit) (v : String) : Nat :=
  (l.filter (fun h => truthyVert h == some v)).length

/-- Count of hits without a truthy vertical. -/
def countNoVert (l : List Hit) : Nat :=
  (l.filter (fun h => truthyVert h == none)).length

/-! ## HybridSearch orchestrator (hybrid_search.py)

The engine object's mutable fields become an explicit state record; the
record store (`self.db`), the sentence-transformer embedder and the taxonomy
tables are parameters.  File I/O (saving/loading snapshots) and logging have
no effect on the modelled state and are omitted; `search()` is modelled on an
engine whose lazy initialization has already run (the load path is file-system
work outside this embedding). -/

structure EngineState where
  semantic_weight : ℚ
  faiss : FaissState
  bm25 : BM25State
  is_initialized : Bool

/-- The search response dictionary (the fields with modelled content). -/
structure SearchOut where
  query : String
  expanded_query : Option String
  total_results : Nat
  results : List Hit
  filters_applied : MergedFilters
  semantic_weight : ℚ

/-- The engine state between hybrid_search.py lines 167 and 183: `search()`
has executed `self.semantic_weight = self.query_processor.get_query_vector_weight(clean_query)`
and not yet restored the original; retrieval and fusion run against this
state. -/
def searchMidState (st : EngineState) (args : SearchArgs) : EngineState :=
  { st with semantic_weight := get_query_vector_weight (clean_query args.query) }

/-- `HybridSearch.search` (hybrid_search.py lines 127-231).  `db` models
`self.db.get_startup_by_id`; `embed` models `self.embedder.embed_text`;
`syns`/`verticals` are the taxonomy tables of the query processor;
`extracted` is the value of `self.query_processor.extract_filters(query)`
(the regex probes run by the collaborator).  Returns the response together
with the engine state after the call (the weight restored at line 183). -/
def searchModel (db : Int → Option Startup) (embed : String → List ℚ)
    (syns : List (String × List String)) (verticals : List Vertical)
    (st : EngineState) (args : SearchArgs) (extracted : ExtractedFilters) :
    SearchOut × EngineState :=
  let top_k := resolveOpt args.top_k 20
  let cleanq := clean_query args.query
  let merged := mergeFilters args extracted
  let search_query :=
    if args.enable_query_expansion then expand_query syns verticals cleanq else cleanq
  let stMid := searchMidState st args
  let fetch_k := min (top_k * 5) 200
  let query_embedding := embed search_query
  let semantic_results := faissSearch stMid.faiss query_embedding fetch_k
  let keyword_results := bm25Search stMid.bm25 search_query fetch_k
  let combined := reciprocal_rank_fusion stMid.semantic_weight semantic_results keyword_results 60
  let stFinal := { stMid with semantic_weight := st.semantic_weight }
  let results :=
    combined.filterMap (fun p =>
      match db p.1 with
      | none => none
      | some s => if passesFilters merged s then some (Hit.mk s p.2) else none)
  let finalResults :=
    if args.enable_diversity then diversify results (some top_k) none
    else results.take top_k
  ({ query := args.query,
     expanded_query := if args.enable_query_expansion then some search_query else none,
     total_results := finalResults.length,
     results := finalResults,
     filters_applied := merged,
     semantic_weight := stFinal.semantic_weight }, stFinal)

/-- `HybridSearch.rebuild_index` (hybrid_search.py lines 61-91) as the
sequence of engine states a concurrent reader can observe: the entry state,
the state after `self.faiss_manager.build_index` (line 82), the state after
`self.bm25_engine.build_index` (line 86), and the state after
`self.is_initialized = True` (line 88).  With no startups the method returns
at once.  `embedStartups` models `self.embedder.embed_startups`; `mkFaiss`
and `mkBM25` model the external index constructions; the snapshot saves to
disk between the steps do not change the in-memory state. -/
def rebuildTrace (embedStartups : List Startup → List (List ℚ))
    (mkFaiss : List (List ℚ) → List ℚ → Nat → List (Int × ℚ))
    (mkBM25 : List (List String) → List String → List ℚ)
    (st : EngineState) (startups : List Startup) : List EngineState :=
  if startups = [] then [st]
  else
    let embeddings := embedStartups startups
    let startup_ids := startups.map Startup.id
    let st1 := { st with faiss := faissBuild st.faiss embeddings startup_ids mkFaiss }
    let st2 := { st1 with bm25 := bm25Build st1.bm25 startups mkBM25 }
    let st3 := { st2 with is_initialized := true }
    [st, st1, st2, st3]

/-! ## Lemmas about the RRF accumulator -/

theorem mem_keys_iff (l : List (Int × ℚ)) (j : Int) :
    j ∈ l.map Prod.fst ↔ ∃ q, (j, q) ∈ l := by
  constructor
  · intro h
    obtain ⟨p, hp, hpj⟩ := List.mem_map.mp h
    exact ⟨p.2, by simpa [← hpj] using hp⟩
  · rintro ⟨q, hq⟩
    exact List.mem_map.mpr ⟨(j, q), hq, rfl⟩

theorem getScore_upsert (sc : List (Int × ℚ)) (id : Int) (a : ℚ) (j : Int) :
    getScore (upsert sc id a) j =
      if j = id then getScore sc j + a else getScore sc j := by
  induction sc with
  | nil =>
    simp only [upsert, getScore]
    by_cases h : j = id
    · simp [h]
    · rw [if_neg h, if_neg (fun he : id = j => h he.symm)]
  | cons p rest ih =>
    obtain ⟨i, v⟩ := p
    simp only [upsert]
    by_cases hi : i = id
    · subst hi
      simp only [if_pos rfl, getScore]
      by_cases hj : i = j
      · subst hj; simp
      · rw [if_neg hj, if_neg (fun he : j = i => hj he.symm), if_neg hj]
    · simp only [if_neg hi, getScore]
      by_cases hj : i = j
      · subst hj
        simp [hi]
      · rw [if_neg hj, if_neg hj, ih]

theorem mem_upsert_iff (sc : List (Int × ℚ)) (id : Int) (a : ℚ) (j : Int) :
    (∃ q, (j, q) ∈ upsert sc id a) ↔ j = id ∨ ∃ q, (j, q) ∈ sc := by
  induction sc with
  | nil => simp [upsert]
  | cons p rest ih =>
    obtain ⟨i, v⟩ := p
    by_cases hi : i = id
    · subst hi
      simp only [upsert, if_pos rfl]
      constructor
      · rintro ⟨q, hq⟩
        rcases List.mem_cons.mp hq with h | h
        · left; exact (Prod.mk.injEq .. ▸ h).1
        · right; exact ⟨q, List.mem_cons_of_mem _ h⟩
      · rintro (h | ⟨q, hq⟩)
        · exact ⟨v + a, by simp [h]⟩
        · rcases List.mem_cons.mp hq with h | h
          · exact ⟨v + a, by simp [(Prod.mk.injEq .. ▸ h).1]⟩
          · exact ⟨q, List.mem_cons_of_mem _ h⟩
    · simp only [upsert, if_neg hi]
      constructor
      · rintro ⟨q, hq⟩
        rcases List.mem_cons.mp hq with h | h
        · right; exact ⟨q, by simp [h]⟩
        · rcases ih.mp ⟨q, h⟩ with h2 | ⟨q2, h2⟩
          · left; exact h2
          · right; exact ⟨q2, List.mem_cons_of_mem _ h2⟩
      · rintro (h | ⟨q, hq⟩)
        · obtain ⟨q2, h2⟩ := ih.mpr (Or.inl h)
          exact ⟨q2, List.mem_cons_of_mem _ h2⟩
        · rcases List.mem_cons.mp hq with h | h
          · exact ⟨v, by simp [(Prod.mk.injEq .. ▸ h).1, (Prod.mk.injEq .. ▸ h).2]⟩
          · obtain ⟨q2, h2⟩ := ih.mpr (Or.inr ⟨q, h⟩)
            exact ⟨q2, List.mem_cons_of_mem _ h2⟩

theorem keysNodup_upsert (sc : List (Int × ℚ)) (id : Int) (a : ℚ)
    (h : keysNodup sc) : keysNodup (upsert sc id a) := by
  induction sc with
  | nil => simp [upsert, keysNodup]
  | cons p rest ih =>
    obtain ⟨i, v⟩ := p
    simp only [keysNodup, List.map_cons, List.nodup_cons] at h
    by_cases hi : i = id
    · simpa [upsert, hi, keysNodup] using h
    · have hrest := ih h.2
      simp only [upsert, if_neg hi, keysNodup, List.map_cons, List.nodup_cons]
      refine ⟨?_, hrest⟩
      intro hmem
      rcases (mem_upsert_iff rest id a i).mp ((mem_keys_iff _ _).mp hmem) with h2 | ⟨q, h2⟩
      · exact hi h2
      · exact h.1 ((mem_keys_iff _ _).mpr ⟨q, h2⟩)

theorem getScore_of_mem (sc : List (Int × ℚ)) (j : Int) (q : ℚ)
    (hnd : keysNodup sc) (hmem : (j, q) ∈ sc) : getScore sc j = q := by
  induction sc with
  | nil => simp at hmem
  | cons p rest ih =>
    obtain ⟨i, v⟩ := p
    simp only [keysNodup, List.map_cons, List.nodup_cons] at hnd
    rcases List.mem_cons.mp hmem with h | h
    · have h1 := (Prod.mk.injEq .. ▸ h).1
      have h2 := (Prod.mk.injEq .. ▸ h).2
      simp [getScore, h1.symm, h2]
    · have : ¬ i = j := by
        intro he
        exact hnd.1 ((mem_keys_iff _ _).mpr ⟨q, he ▸ h⟩)
      simp [getScore, this, ih hnd.2 h]

theorem mem_addRanked_iff (w : ℚ) (k : Nat) (l : List (Int × ℚ)) :
    ∀ (sc : List (Int × ℚ)) (n : Nat) (j : Int),
      (∃ q, (j, q) ∈ addRanked w k sc n l) ↔
        (∃ q, (j, q) ∈ sc) ∨ ∃ s, (j, s) ∈ l := by
  induction l with
  | nil => intro sc n j; simp [addRanked]
  | cons p rest ih =>
    intro sc n j
    obtain ⟨id, s⟩ := p
    simp only [addRanked]
    rw [ih]
    rw [mem_upsert_iff]
    constructor
    · rintro ((h | h) | ⟨q, h⟩)
      · exact Or.inr ⟨s, by simp [h]⟩
      · exact Or.inl h
      · exact Or.inr ⟨q, List.mem_cons_of_mem _ h⟩
    · rintro (h | ⟨q, h⟩)
      · exact Or.inl (Or.inr h)
      · rcases List.mem_cons.mp h with h2 | h2
        · exact Or.inl (Or.inl (Prod.mk.injEq .. ▸ h2).1)
        · exact Or.inr ⟨q, h2⟩

theorem keysNodup_addRanked (w : ℚ) (k : Nat) (l : List (Int × ℚ)) :
    ∀ (sc : List (Int × ℚ)) (n : Nat), keysNodup sc → keysNodup (addRanked w k sc n l) := by
  induction l with
  | nil => intro sc n h; exact h
  | cons p rest ih =>
    intro sc n h
    obtain ⟨id, s⟩ := p
    exact ih _ _ (keysNodup_upsert sc id _ h)

theorem getScore_addRanked (w : ℚ) (k : Nat) (l : List (Int × ℚ)) :
    ∀ (sc : List (Int × ℚ)) (n : Nat) (j : Int),
      getScore (addRanked w k sc n l) j =
        getScore sc j + w * specContribFrom k j n (l.map Prod.fst) := by
  induction l with
  | nil => intro sc n j; simp [addRanked, specContribFrom]
  | cons p rest ih =>
    intro sc n j
    obtain ⟨id, s⟩ := p
    simp only [addRanked, List.map_cons, specContribFrom]
    rw [ih, getScore_upsert]
    by_cases h : j = id
    · rw [if_pos h, if_pos (h.symm)]
      ring
    · rw [if_neg h, if_neg (fun he : id = j => h he.symm)]
      ring


/-! ## Claim C1 -/

/-- Claim C1: for every pair of ranked input lists, every fusion weight
`w ∈ [0,1]` and `k = 60`, the fused score of an id equals
`w · Σ 1/(k + rank_sem + 1) + (1−w) · Σ 1/(k + rank_kw + 1)` over its
occurrences, an id absent from a list contributing 0 from that list; only ids
present in at least one input list appear in the output; the output is sorted
descending by fused score; and concretely
`semantic = [(42, rank 0)], keyword = [], w = 0.6, k = 60` fuses to exactly
`[(42, 0.6/61)]`. -/
theorem C1_rrf_fused_score (w : ℚ) (hw0 : 0 ≤ w) (hw1 : w ≤ 1)
    (semantic_results keyword_results : List (Int × ℚ)) :
    (∀ p ∈ reciprocal_rank_fusion w semantic_results keyword_results 60,
        p.2 = specFusedScore w 60 (semantic_results.map Prod.fst)
          (keyword_results.map Prod.fst) p.1)
    ∧ (∀ i : Int,
        (∃ q, (i, q) ∈ reciprocal_rank_fusion w semantic_results keyword_results 60) ↔
          (∃ s, (i, s) ∈ semantic_results) ∨ (∃ s, (i, s) ∈ keyword_results))
    ∧ (reciprocal_rank_fusion w semantic_results keyword_results 60).Sorted scoreDesc
    ∧ reciprocal_rank_fusion (3/5) [((42 : Int), (1 : ℚ))] [] 60 =
        [((42 : Int), (3 : ℚ)/5/61)] := by
  have hperm := List.perm_insertionSort scoreDesc
    (addRanked (1 - w) 60 (addRanked w 60 [] 0 semantic_results) 0 keyword_results)
  refine ⟨?_, ?_, ?_, by
    simp only [reciprocal_rank_fusion, addRanked, upsert, List.insertionSort,
      List.orderedInsert]
    norm_num⟩
  · rintro ⟨j, q⟩ hp
    have hp2 : (j, q) ∈
        addRanked (1 - w) 60 (addRanked w 60 [] 0 semantic_results) 0 keyword_results := by
      exact hperm.mem_iff.mp hp
    have hnd : keysNodup
        (addRanked (1 - w) 60 (addRanked w 60 [] 0 semantic_results) 0 keyword_results) :=
      keysNodup_addRanked _ _ _ _ _
        (keysNodup_addRanked _ _ _ _ _ (by simp [keysNodup]))
    have hge := getScore_of_mem _ _ _ hnd hp2
    have hsum : getScore
        (addRanked (1 - w) 60 (addRanked w 60 [] 0 semantic_results) 0 keyword_results) j =
        w * specContribFrom 60 j 0 (semantic_results.map Prod.fst) +
          (1 - w) * specContribFrom 60 j 0 (keyword_results.map Prod.fst) := by
      rw [getScore_addRanked, getScore_addRanked]
      simp [getScore]
    simp only [specFusedScore]
    rw [← hsum, hge]
  · intro i
    have hm : (∃ q, (i, q) ∈
        reciprocal_rank_fusion w semantic_results keyword_results 60) ↔
        ∃ q, (i, q) ∈
          addRanked (1 - w) 60 (addRanked w 60 [] 0 semantic_results) 0 keyword_results := by
      constructor
      · rintro ⟨q, hq⟩; exact ⟨q, hperm.mem_iff.mp hq⟩
      · rintro ⟨q, hq⟩; exact ⟨q, hperm.mem_iff.mpr hq⟩
    rw [hm, mem_addRanked_iff, mem_addRanked_iff]
    simp
  · exact List.sorted_insertionSort scoreDesc _

/-- Witness for C1 at the concrete input of the claim. -/
theorem C1_rrf_fused_score_witness :
    (0 : ℚ) ≤ 3/5 ∧ (3 : ℚ)/5 ≤ 1 ∧
      reciprocal_rank_fusion (3/5) [((42 : Int), (1 : ℚ))] [] 60 =
        [((42 : Int), (3 : ℚ)/5/61)] :=
  ⟨by norm_num, by norm_num,
    (C1_rrf_fused_score (3/5) (by norm_num) (by norm_num)
      [((42 : Int), (1 : ℚ))] []).2.2.2⟩

/-! ## Claim C5 -/

/-- Characterization of the vertical-detection loop: a display-name match
stops the loop at the first such vertical, while keyword matches only
overwrite the accumulator, so with no name match the *last* keyword-matching
vertical (the first in the reversed list) wins. -/
theorem extractVerticalLoop_char (ql : List Char) :
    ∀ (vs : List Vertical) (acc : Option String),
      extractVerticalLoop ql vs acc =
        match vs.find? (fun v => occursIn (lowerL v.name.data) ql) with
        | some v => some v.id
        | none =>
          match vs.reverse.find? (fun v => kwMatch v ql) with
          | some v => some v.id
          | none => acc := by
  intro vs
  induction vs with
  | nil => intro acc; simp [extractVerticalLoop]
  | cons v rest ih =>
    intro acc
    by_cases hn : occursIn (lowerL v.name.data) ql
    · simp [extractVerticalLoop, hn, List.find?_cons_of_pos _ hn]
    · rw [List.find?_cons_of_neg _ (by simpa using hn)]
      have hrev : (v :: rest).reverse.find? (fun u => kwMatch u ql) =
          ((rest.reverse.find? (fun u => kwMatch u ql)).or
            ([v].find? (fun u => kwMatch u ql))) := by
        rw [List.reverse_cons, List.find?_append]
      rw [hrev]
      by_cases hk : kwMatch v ql
      · simp only [extractVerticalLoop]
        rw [if_neg hn, if_pos hk, ih (some v.id)]
        cases hfind : rest.find? (fun u => occursIn (lowerL u.name.data) ql) with
        | some w => simp
        | none =>
          cases hrest : rest.reverse.find? (fun u => kwMatch u ql) with
          | some u => simp [Option.or]
          | none => simp [List.find?, hk, Option.or]
      · simp only [extractVerticalLoop]
        rw [if_neg hn, if_neg hk, ih acc]
        cases hfind : rest.find? (fun u => occursIn (lowerL u.name.data) ql) with
        | some w => simp
        | none =>
          cases hrest : rest.reverse.find? (fun u => kwMatch u ql) with
          | some u => simp [Option.or]
          | none => simp [List.find?, hk, Option.or]

/-- Counterexample to claim C5: with verticals `v1` (keywords `["solar"]`)
before `v2` (keywords `["wind"]`) and the query `"solar wind"`, the first
matching vertical is `v1`, yet the code extracts `v2` — the keyword `break`
only leaves the inner loop, so the later vertical overrides the earlier
match. -/
theorem C5_counterexample :
    extractVerticalFilter
        [⟨"v1", "zzz", ["solar"]⟩, ⟨"v2", "yyy", ["wind"]⟩] "solar wind" = some "v2"
    ∧ specFirstMatchVertical
        [⟨"v1", "zzz", ["solar"]⟩, ⟨"v2", "yyy", ["wind"]⟩] "solar wind" = some "v1"
    ∧ (some "v2" : Option String) ≠ some "v1" := by
  refine ⟨by decide, by decide, by decide⟩

/-- Claim C5 (amended): the extracted vertical filter is the first vertical,
in taxonomy order, whose display name occurs in the lowercased query — a name
match does stop all further checks — but a keyword match only records the
vertical and continues, so when no display name matches, the result is the
*last* vertical one of whose keywords occurs in the query (none when nothing
matches). -/
theorem C5_vertical_extraction_amended (verticals : List Vertical) (query : String) :
    extractVerticalFilter verticals query =
      match verticals.find?
          (fun v => occursIn (lowerL v.name.data) (lowerL query.data)) with
      | some v => some v.id
      | none =>
        match verticals.reverse.find? (fun v => kwMatch v (lowerL query.data)) with
        | some v => some v.id
        | none => none :=
  extractVerticalLoop_char (lowerL query.data) verticals none

/-! ## Sentinel-substitution lemmas for the filter step -/

theorem yearOr0_some {s : Startup} {y : Int} (h : s.founded_year = some y) :
    yearOr0 s = y := by
  simp only [yearOr0, h]
  split <;> omega

theorem yearOr0_none {s : Startup} (h : s.founded_year = none) : yearOr0 s = 0 := by
  simp [yearOr0, h]

theorem yearOr9999_some {s : Startup} {y : Int} (h : s.founded_year = some y)
    (h0 : y ≠ 0) : yearOr9999 s = y := by
  simp [yearOr9999, h, h0]

theorem yearOr9999_sentinel {s : Startup}
    (h : s.founded_year = none ∨ s.founded_year = some 0) : yearOr9999 s = 9999 := by
  rcases h with h | h <;> simp [yearOr9999, h]

theorem fundingOr0_some {s : Startup} {f : ℚ} (h : s.total_funding_usd = some f) :
    fundingOr0 s = f := by
  simp only [fundingOr0, h]
  split <;> simp_all

theorem fundingOr0_none {s : Startup} (h : s.total_funding_usd = none) :
    fundingOr0 s = 0 := by
  simp [fundingOr0, h]

/-! ## Claim C2 -/

/-- Counterexample to claim C2: the query `"solar startup companies"` implies
the vertical `solar_energy` through keyword extraction, the caller supplies
the explicit (non-absent) vertical filter `""`, and the merged filter that is
applied and echoed is the implicit `solar_energy`, not the explicit `""` —
the Python `or` merge drops falsy explicit values. -/
theorem C2_counterexample :
    extractVerticalFilter [⟨"solar_energy", "solar", ["solar", "photovoltaic"]⟩]
        "solar startup companies" = some "solar_energy"
    ∧ (mergeFilters { query := "solar startup companies", vertical_filter := some "" }
        { vertical_filter := some "solar_energy" }).vertical = some "solar_energy"
    ∧ (some "solar_energy" : Option String) ≠ some "" :=
  ⟨by decide, by decide, by decide⟩

/-- Claim C2 (amended): an explicit filter overrides the corresponding
extracted implicit filter exactly when the explicit value is truthy; a falsy
explicit value (absent, the empty string, integer `0`, or number `0.0`) falls
back to the implicit extracted value. -/
theorem C2_merge_amended (args : SearchArgs) (extracted : ExtractedFilters) :
    ((∀ v, args.vertical_filter = some v → v ≠ "" →
        (mergeFilters args extracted).vertical = some v)
      ∧ ((args.vertical_filter = none ∨ args.vertical_filter = some "") →
        (mergeFilters args extracted).vertical = extracted.vertical_filter))
    ∧ ((∀ n, args.founded_year_min = some n → n ≠ 0 →
        (mergeFilters args extracted).founded_year_min = some n)
      ∧ ((args.founded_year_min = none ∨ args.founded_year_min = some 0) →
        (mergeFilters args extracted).founded_year_min = extracted.founded_year_min))
    ∧ ((∀ n, args.founded_year_max = some n → n ≠ 0 →
        (mergeFilters args extracted).founded_year_max = some n)
      ∧ ((args.founded_year_max = none ∨ args.founded_year_max = some 0) →
        (mergeFilters args extracted).founded_year_max = extracted.founded_year_max))
    ∧ ((∀ q, args.min_funding_usd = some q → q ≠ 0 →
        (mergeFilters args extracted).min_funding_usd = some q)
      ∧ ((args.min_funding_usd = none ∨ args.min_funding_usd = some 0) →
        (mergeFilters args extracted).min_funding_usd = extracted.min_funding_usd)) := by
  refine ⟨⟨?_, ?_⟩, ⟨?_, ?_⟩, ⟨?_, ?_⟩, ⟨?_, ?_⟩⟩
  · intro v hv hne; simp [mergeFilters, pyOrS, hv, hne]
  · rintro (h | h) <;> simp [mergeFilters, pyOrS, h]
  · intro n hn hne; simp [mergeFilters, pyOrI, hn, hne]
  · rintro (h | h) <;> simp [mergeFilters, pyOrI, h]
  · intro n hn hne; simp [mergeFilters, pyOrI, hn, hne]
  · rintro (h | h) <;> simp [mergeFilters, pyOrI, h]
  · intro q hq hne; simp [mergeFilters, pyOrQ, hq, hne]
  · rintro (h | h) <;> simp [mergeFilters, pyOrQ, h]

/-- Witness for the amended C2 at concrete inputs: a truthy explicit vertical
wins; a falsy explicit year bound falls back to the implicit one. -/
theorem C2_merge_amended_witness :
    (mergeFilters { query := "q", vertical_filter := some "energy_storage" }
        { vertical_filter := some "solar_energy" }).vertical = some "energy_storage"
    ∧ (mergeFilters { query := "q", founded_year_min := some 0 }
        { founded_year_min := some 2020 }).founded_year_min = some 2020 :=
  ⟨(C2_merge_amended { query := "q", vertical_filter := some "energy_storage" }
      { vertical_filter := some "solar_energy" }).1.1 "energy_storage" rfl (by decide),
    (C2_merge_amended { query := "q", founded_year_min := some 0 }
      { founded_year_min := some 2020 }).2.1.2 (Or.inr rfl)⟩

/-! ## Claim C6 -/

/-- Counterexample to claim C6: with the year bound `founded_year_max = 9999`
set and a document whose `founded_year` is missing, the document *passes*
the filter step (the missing year is substituted by the sentinel `9999` and
`9999 > 9999` is false), where the claim demands exclusion for every bound
value including `9999`. -/
theorem C6_counterexample :
    passesFilters
        { vertical := none, founded_year_min := none,
          founded_year_max := some 9999, min_funding_usd := none }
        { id := 1 } = true
    ∧ ({ id := 1 } : Startup).founded_year = none :=
  ⟨by decide, rfl⟩

/-- Claim C6 (amended): a fused hit is kept iff — exact vertical match when a
truthy vertical filter is set; when a truthy `founded_year_min` is set, a
present year must be at least the bound while a missing year passes only if
the bound is non-positive; when a truthy `founded_year_max` is set, a present
nonzero year must be at most the bound while a missing (or zero) year is
treated as the sentinel `9999` and passes iff the bound is at least `9999`;
when a truthy `min_funding_usd` is set, present funding must reach the bound
while missing funding passes only if the bound is non-positive.  A bound of
`0` (and a vertical of `""`) is falsy and applies no constraint. -/
theorem C6_filter_amended (m : MergedFilters) (s : Startup) :
    passesFilters m s = true ↔
      ((∀ v, m.vertical = some v → v ≠ "" → s.primary_vertical = some v)
        ∧ (∀ n, m.founded_year_min = some n → n ≠ 0 →
            (∀ y, s.founded_year = some y → n ≤ y)
              ∧ (s.founded_year = none → n ≤ 0))
        ∧ (∀ n, m.founded_year_max = some n → n ≠ 0 →
            (∀ y, s.founded_year = some y → y ≠ 0 → y ≤ n)
              ∧ ((s.founded_year = none ∨ s.founded_year = some 0) → (9999 : Int) ≤ n))
        ∧ (∀ q, m.min_funding_usd = some q → q ≠ 0 →
            (∀ f, s.total_funding_usd = some f → q ≤ f)
              ∧ (s.total_funding_usd = none → q ≤ 0))) := by
  simp only [passesFilters]
  rw [Bool.and_eq_true, Bool.and_eq_true, Bool.and_eq_true]
  constructor
  · rintro ⟨⟨⟨h1, h2⟩, h3⟩, h4⟩
    refine ⟨?_, ?_, ?_, ?_⟩
    · intro v hv hne
      rw [hv] at h1
      simp [hne] at h1
      exact h1
    · intro n hn hne
      rw [hn] at h2
      simp [hne] at h2
      exact ⟨fun y hy => (yearOr0_some hy) ▸ h2, fun hy => (yearOr0_none hy) ▸ h2⟩
    · intro n hn hne
      rw [hn] at h3
      simp [hne] at h3
      exact ⟨fun y hy hy0 => (yearOr9999_some hy hy0) ▸ h3,
        fun hy => (yearOr9999_sentinel hy) ▸ h3⟩
    · intro q hq hne
      rw [hq] at h4
      simp [hne] at h4
      exact ⟨fun f hf => (fundingOr0_some hf) ▸ h4, fun hf => (fundingOr0_none hf) ▸ h4⟩
  · rintro ⟨h1, h2, h3, h4⟩
    have g1 : (match m.vertical with
        | some v => if v = "" then true else s.primary_vertical == some v
        | none => true) = true := by
      match hv : m.vertical with
      | none => rfl
      | some v =>
        by_cases hne : v = ""
        · simp [hne]
        · simp only [hne, if_false]
          simpa using h1 v hv hne
    have g2 : (match m.founded_year_min with
        | some n => if n = 0 then true else decide (n ≤ yearOr0 s)
        | none => true) = true := by
      match hn : m.founded_year_min with
      | none => rfl
      | some n =>
        by_cases hne : n = 0
        · simp [hne]
        · simp only [hne, if_false, decide_eq_true_eq]
          match hy : s.founded_year with
          | some y => exact (yearOr0_some hy) ▸ (h2 n hn hne).1 y hy
          | none => exact (yearOr0_none hy) ▸ (h2 n hn hne).2 hy
    have g3 : (match m.founded_year_max with
        | some n => if n = 0 then true else decide (yearOr9999 s ≤ n)
        | none => true) = true := by
      match hn : m.founded_year_max with
      | none => rfl
      | some n =>
        by_cases hne : n = 0
        · simp [hne]
        · simp only [hne, if_false, decide_eq_true_eq]
          match hy : s.founded_year with
          | some y =>
            by_cases hy0 : y = 0
            · exact (yearOr9999_sentinel (Or.inr (hy0 ▸ hy))) ▸
                (h3 n hn hne).2 (Or.inr (hy0 ▸ hy))
            · exact (yearOr9999_some hy hy0) ▸ (h3 n hn hne).1 y hy hy0
          | none => exact (yearOr9999_sentinel (Or.inl hy)) ▸ (h3 n hn hne).2 (Or.inl hy)
    have g4 : (match m.min_funding_usd with
        | some q => if q = 0 then true else decide (q ≤ fundingOr0 s)
        | none => true) = true := by
      match hq : m.min_funding_usd with
      | none => rfl
      | some q =>
        by_cases hne : q = 0
        · simp [hne]
        · simp only [hne, if_false, decide_eq_true_eq]
          match hf : s.total_funding_usd with
          | some f => exact (fundingOr0_some hf) ▸ (h4 q hq hne).1 f hf
          | none => exact (fundingOr0_none hf) ▸ (h4 q hq hne).2 hf
    exact ⟨⟨⟨g1, g2⟩, g3⟩, g4⟩

/-- Witness for the amended C6 at a concrete input: a 2015 solar startup with
sixty million in funding passes the filter set
`vertical = solar_energy, year ∈ [2010, 2020], funding ≥ 5e7`. -/
theorem C6_filter_amended_witness :
    passesFilters
        { vertical := some "solar_energy", founded_year_min := some 2010,
          founded_year_max := some 2020, min_funding_usd := some 50000000 }
        { id := 7, founded_year := some 2015, total_funding_usd := some 60000000,
          primary_vertical := some "solar_energy" } = true :=
  (C6_filter_amended _ _).mpr
    ⟨fun _ hv _ => hv,
      fun n hn _ => ⟨fun y hy => by
        have hn2 : (2010 : Int) = n := by simpa using hn
        have hy2 : (2015 : Int) = y := by simpa using hy
        omega, fun hy => by simp at hy⟩,
      fun n hn _ => ⟨fun y hy _ => by
        have hn2 : (2020 : Int) = n := by simpa using hn
        have hy2 : (2015 : Int) = y := by simpa using hy
        omega, fun hy => by simp at hy⟩,
      fun q hq _ => ⟨fun f hf => by
        have hq2 : (50000000 : ℚ) = q := by simpa using hq
        have hf2 : (60000000 : ℚ) = f := by simpa using hf
        rw [← hq2, ← hf2]; norm_num, fun hf => by simp at hf⟩⟩

/-! ## Claim C10 -/

/-- Claim C10: `extract_filters` may also produce a `location` entry, but
`search()` reads only the `vertical_filter`, `founded_year_min`,
`founded_year_max` and `min_funding_usd` entries of the extracted set, so the
location entry — whatever its value — changes neither the hits returned nor
the echoed `filters_applied` (the whole response and resulting engine state
are unchanged). -/
theorem C10_location_never_read (db : Int → Option Startup) (embed : String → List ℚ)
    (syns : List (String × List String)) (verticals : List Vertical)
    (st : EngineState) (args : SearchArgs) (extracted : ExtractedFilters)
    (loc : Option String) :
    searchModel db embed syns verticals st args { extracted with location := loc } =
      searchModel db embed syns verticals st args extracted := by
  cases extracted
  rfl

/-! ## Diversifier lemmas: the per-category cap of the round-robin pass -/

theorem countVert_append_one (div : List Hit) (h : Hit) (c : String) :
    countVert (div ++ [h]) c =
      countVert div c + (if truthyVert h == some c then 1 else 0) := by
  simp only [countVert, List.filter_append, List.length_append]
  congr 1
  by_cases hc : truthyVert h == some c <;> simp [List.filter, hc]

theorem countVert_append_nv (div : List Hit) (h : Hit) (c : String)
    (hh : truthyVert h = none) : countVert (div ++ [h]) c = countVert div c := by
  rw [countVert_append_one, hh]
  simp

theorem mem_bucketOf {results : List Hit} {v : String} {h : Hit}
    (hm : h ∈ bucketOf results v) : truthyVert h = some v := by
  have := List.of_mem_filter hm
  simpa using this

theorem mem_noVertOf {results : List Hit} {h : Hit}
    (hm : h ∈ noVertOf results) : truthyVert h = none := by
  have := List.of_mem_filter hm
  simpa using this

/-- Invariant of the inner bucket loop: bucket counts stay at most `maxPer`
and agree with the per-category counts of the emitted list. -/
theorem roundVerts_inv (byV : String → List Hit) (maxPer total : Nat)
    (hw : ∀ v h, h ∈ byV v → truthyVert h = some v) :
    ∀ (keys : List String) (div : List Hit) (counts : String → Nat) (added : Bool),
      (∀ c, counts c ≤ maxPer) → (∀ c, countVert div c = counts c) →
      (∀ c, (roundVerts byV maxPer total keys (div, counts, added)).2.1 c ≤ maxPer)
        ∧ (∀ c, countVert (roundVerts byV maxPer total keys (div, counts, added)).1 c =
            (roundVerts byV maxPer total keys (div, counts, added)).2.1 c) := by
  intro keys
  induction keys with
  | nil => intro div counts added hcap hagree; exact ⟨hcap, hagree⟩
  | cons v vs ih =>
    intro div counts added hcap hagree
    by_cases hfull : maxPer ≤ counts v
    · simp only [roundVerts, if_pos hfull]
      exact ih div counts added hcap hagree
    · simp only [roundVerts, if_neg hfull]
      cases hget : (byV v)[counts v]? with
      | none => exact ih div counts added hcap hagree
      | some h =>
        have hvert : truthyVert h = some v := hw v h (List.getElem?_mem hget)
        have hcap2 : ∀ c, bumpCount counts v c ≤ maxPer := by
          intro c
          by_cases hc : c = v
          · simp only [bumpCount, if_pos hc]
            omega
          · simp only [bumpCount, if_neg hc]
            exact hcap c
        have hagree2 : ∀ c, countVert (div ++ [h]) c = bumpCount counts v c := by
          intro c
          rw [countVert_append_one, hvert, hagree c]
          by_cases hc : v = c
          · subst hc; simp [bumpCount]
          · have hc2 : ¬ c = v := fun he => hc he.symm
            simp [bumpCount, hc, hc2]
        by_cases hstop : total ≤ (div ++ [h]).length
        · simp only [if_pos hstop]
          exact ⟨hcap2, hagree2⟩
        · simp only [if_neg hstop]
          exact ih (div ++ [h]) (bumpCount counts v) true hcap2 hagree2

/-- The `no_vertical` step never changes any per-category count. -/
theorem noVertStep_inv (noV : List Hit) (total roundNum : Nat)
    (hw : ∀ h, h ∈ noV → truthyVert h = none)
    (div : List Hit) (added : Bool) (c : String) :
    countVert (noVertStep noV total roundNum div added).1 c = countVert div c := by
  simp only [noVertStep]
  split
  · cases hget : noV[roundNum]? with
    | none => rfl
    | some h =>
      have := hw h (List.getElem?_mem hget)
      simpa using countVert_append_nv div h c this
  · rfl

/-- Through every round, each truthy category's count in the emitted list
stays at most `maxPer`. -/
theorem roundLoop_cap (keys : List String) (byV : String → List Hit) (noV : List Hit)
    (maxPer total : Nat)
    (hbv : ∀ v h, h ∈ byV v → truthyVert h = some v)
    (hnv : ∀ h, h ∈ noV → truthyVert h = none) :
    ∀ (fuel roundNum : Nat) (div : List Hit) (counts : String → Nat),
      (∀ c, counts c ≤ maxPer) → (∀ c, countVert div c = counts c) →
      ∀ c, countVert (roundLoop keys byV noV maxPer total fuel roundNum div counts) c ≤
        maxPer := by
  intro fuel
  induction fuel with
  | zero =>
    intro roundNum div counts hcap hagree c
    simp only [roundLoop]
    rw [hagree c]
    exact hcap c
  | succ fuel ih =>
    intro roundNum div counts hcap hagree c
    simp only [roundLoop]
    split
    · rcases hrv : roundVerts byV maxPer total keys (div, counts, false) with
        ⟨div1, counts1, added1⟩
      have hinv := roundVerts_inv byV maxPer total hbv keys div counts false hcap hagree
      rw [hrv] at hinv
      rcases hns : noVertStep noV total roundNum div1 added1 with ⟨div2, added2⟩
      have hcount2 : ∀ c, countVert div2 c = counts1 c := by
        intro c
        have := noVertStep_inv noV total roundNum hnv div1 added1 c
        rw [hns] at this
        simpa [this] using hinv.2 c
      split
      · exact ih (roundNum + 1) div2 counts1 hinv.1 hcount2 c
      · rw [hcount2 c]
        exact hinv.1 c
    · rw [hagree c]
      exact hcap c

/-! ## Claim C3 -/

/-- Counterexample to claim C3: six hits all lacking a category, with
`total = 6` and `max_per_category = 3` — the claim caps the no-category
bucket at 3, but the code emits one no-category item per round with no cap,
so all six appear (and this is the round-robin pass, not backfill). -/
theorem C3_counterexample :
    countNoVert (diversify
        ((List.range 6).map (fun i => Hit.mk { id := (i : Int) } 0))
        (some 6) (some 3)) = 6
    ∧ firstPass ((List.range 6).map (fun i => Hit.mk { id := (i : Int) } 0)) 3 6 =
        diversify ((List.range 6).map (fun i => Hit.mk { id := (i : Int) } 0))
          (some 6) (some 3)
    ∧ ¬ (6 : Nat) ≤ 3 := by
  refine ⟨by decide, by decide, by decide⟩

/-- Claim C3 (amended): `diversify` partitions hits into buckets by truthy
category, with uncategorized documents in a separate `no_vertical` list;
rounds emit the next item of every category bucket capped at
`max_per_category` plus — uncapped — one `no_vertical` item per round; the
output never exceeds the resolved `total`; every *categorized* bucket is
capped at `max_per_category` throughout the round-robin pass (before
backfill); and on 10 category-A hits followed by 10 category-B hits with
`max_per_category = 3`, `total = 6`, the output is exactly 3 of A and 3 of
B. -/
theorem C3_diversify_amended :
    (∀ (results : List Hit) (t m : Option Nat),
      (diversify results t m).length ≤ resolveOpt t results.length)
    ∧ (∀ (results : List Hit) (maxPer total : Nat) (c : String),
        countVert (firstPass results maxPer total) c ≤ maxPer)
    ∧ (countVert (diversify
          (((List.range 10).map (fun i => Hit.mk { id := (i : Int), primary_vertical := some "A" } 0)) ++
           ((List.range 10).map (fun i => Hit.mk { id := (10 + i : Int), primary_vertical := some "B" } 0)))
          (some 6) (some 3)) "A" = 3
      ∧ countVert (diversify
          (((List.range 10).map (fun i => Hit.mk { id := (i : Int), primary_vertical := some "A" } 0)) ++
           ((List.range 10).map (fun i => Hit.mk { id := (10 + i : Int), primary_vertical := some "B" } 0)))
          (some 6) (some 3)) "B" = 3
      ∧ (diversify
          (((List.range 10).map (fun i => Hit.mk { id := (i : Int), primary_vertical := some "A" } 0)) ++
           ((List.range 10).map (fun i => Hit.mk { id := (10 + i : Int), primary_vertical := some "B" } 0)))
          (some 6) (some 3)).length = 6) := by
  refine ⟨?_, ?_, by decide, by decide, by decide⟩
  · intro results t m
    simp only [diversify]
    split
    · simp_all
    · rw [List.length_take]
      exact Nat.min_le_left _ _
  · intro results maxPer total c
    exact roundLoop_cap (vertKeys results) (bucketOf results) (noVertOf results)
      maxPer total (fun v h hm => mem_bucketOf hm) (fun h hm => mem_noVertOf hm)
      (total + 1) 0 [] (fun _ => 0) (fun _ => Nat.zero_le _)
      (fun _ => rfl) c

/-! ## Query-expansion set lemmas -/

theorem mem_setInsert (s : List String) (y x : String) :
    x ∈ setInsert s y ↔ x ∈ s ∨ x = y := by
  by_cases h : y ∈ s
  · simp only [setInsert, if_pos h]
    constructor
    · exact Or.inl
    · rintro (hx | rfl)
      · exact hx
      · exact h
  · simp [setInsert, if_neg h]

theorem mem_setUnion (l : List String) :
    ∀ (s : List String) (x : String), x ∈ setUnion s l ↔ x ∈ s ∨ x ∈ l := by
  induction l with
  | nil => intro s x; simp [setUnion]
  | cons a l ih =>
    intro s x
    simp only [setUnion, List.foldl_cons]
    rw [show l.foldl setInsert (setInsert s a) = setUnion (setInsert s a) l from rfl, ih]
    rw [mem_setInsert]
    simp only [List.mem_cons]
    tauto

theorem mem_synInnerFold (ql : List Char) (term : String) (ss : List String) :
    ∀ (acc : List String) (x : String),
      x ∈ ss.foldl
          (fun a syn => if occursIn (lowerL syn.data) ql then setInsert a term else a) acc ↔
        x ∈ acc ∨ (x = term ∧ ∃ s ∈ ss, occursIn (lowerL s.data) ql) := by
  induction ss with
  | nil => intro acc x; simp
  | cons s ss ih =>
    intro acc x
    simp only [List.foldl_cons]
    rw [ih]
    by_cases hs : occursIn (lowerL s.data) ql
    · rw [if_pos hs, mem_setInsert]
      simp only [List.mem_cons]
      constructor
      · rintro ((hx | rfl) | ⟨rfl, w, hw, hw2⟩)
        · exact Or.inl hx
        · exact Or.inr ⟨rfl, s, Or.inl rfl, hs⟩
        · exact Or.inr ⟨rfl, w, Or.inr hw, hw2⟩
      · rintro (hx | ⟨rfl, w, hw | hw, hw2⟩)
        · exact Or.inl (Or.inl hx)
        · exact Or.inl (Or.inr rfl)
        · exact Or.inr ⟨rfl, w, hw, hw2⟩
    · rw [if_neg hs]
      simp only [List.mem_cons]
      constructor
      · rintro (hx | ⟨rfl, w, hw, hw2⟩)
        · exact Or.inl hx
        · exact Or.inr ⟨rfl, w, Or.inr hw, hw2⟩
      · rintro (hx | ⟨rfl, w, rfl | hw, hw2⟩)
        · exact Or.inl hx
        · exact absurd hw2 hs
        · exact Or.inr ⟨rfl, w, hw, hw2⟩

theorem mem_expandSynStep (ql : List Char) (acc : List String)
    (p : String × List String) (x : String) :
    x ∈ expandSynStep ql acc p ↔
      x ∈ acc
        ∨ (occursIn (lowerL p.1.data) ql ∧ x ∈ p.2)
        ∨ (x = p.1 ∧ ∃ s ∈ p.2, occursIn (lowerL s.data) ql) := by
  simp only [expandSynStep]
  rw [mem_synInnerFold]
  by_cases ht : occursIn (lowerL p.1.data) ql
  · rw [if_pos ht, mem_setUnion]
    tauto
  · rw [if_neg ht]
    tauto

theorem mem_synsFold (ql : List Char) (syns : List (String × List String)) :
    ∀ (acc : List String) (x : String),
      x ∈ syns.foldl (expandSynStep ql) acc ↔
        x ∈ acc ∨ ∃ p ∈ syns,
          (occursIn (lowerL p.1.data) ql ∧ x ∈ p.2)
            ∨ (x = p.1 ∧ ∃ s ∈ p.2, occursIn (lowerL s.data) ql) := by
  induction syns with
  | nil => intro acc x; simp
  | cons p syns ih =>
    intro acc x
    simp only [List.foldl_cons]
    rw [ih, mem_expandSynStep]
    simp only [List.mem_cons]
    constructor
    · rintro ((hx | h | h) | ⟨w, hw, h⟩)
      · exact Or.inl hx
      · exact Or.inr ⟨p, Or.inl rfl, Or.inl h⟩
      · exact Or.inr ⟨p, Or.inl rfl, Or.inr h⟩
      · exact Or.inr ⟨w, Or.inr hw, h⟩
    · rintro (hx | ⟨w, hw | hw, h⟩)
      · exact Or.inl (Or.inl hx)
      · subst hw; rcases h with h | h
        · exact Or.inl (Or.inr (Or.inl h))
        · exact Or.inl (Or.inr (Or.inr h))
      · exact Or.inr ⟨w, hw, h⟩

theorem mem_expandVertStep (ql : List Char) (acc : List String) (v : Vertical)
    (x : String) :
    x ∈ expandVertStep ql acc v ↔
      x ∈ acc ∨ ((∃ kw ∈ v.keywords, occursIn (lowerL kw.data) ql)
        ∧ x ∈ v.keywords.take 3) := by
  simp only [expandVertStep]
  cases hf : v.keywords.find? (fun kw => occursIn (lowerL kw.data) ql) with
  | none =>
    have := List.find?_eq_none.mp hf
    constructor
    · exact Or.inl
    · rintro (hx | ⟨⟨kw, hkw, hkw2⟩, _⟩)
      · exact hx
      · exact absurd hkw2 (by simpa using this kw hkw)
  | some kw =>
    rw [mem_setUnion]
    constructor
    · rintro (hx | hx)
      · exact Or.inl hx
      · refine Or.inr ⟨⟨kw, List.mem_of_find?_eq_some hf, ?_⟩, hx⟩
        have h := List.find?_some hf
        simpa using h
    · rintro (hx | ⟨_, hx⟩)
      · exact Or.inl hx
      · exact Or.inr hx

theorem mem_vertsFold (ql : List Char) (verticals : List Vertical) :
    ∀ (acc : List String) (x : String),
      x ∈ verticals.foldl (expandVertStep ql) acc ↔
        x ∈ acc ∨ ∃ v ∈ verticals,
          (∃ kw ∈ v.keywords, occursIn (lowerL kw.data) ql) ∧ x ∈ v.keywords.take 3 := by
  induction verticals with
  | nil => intro acc x; simp
  | cons v verticals ih =>
    intro acc x
    simp only [List.foldl_cons]
    rw [ih, mem_expandVertStep]
    simp only [List.mem_cons]
    constructor
    · rintro ((hx | h) | ⟨w, hw, h⟩)
      · exact Or.inl hx
      · exact Or.inr ⟨v, Or.inl rfl, h⟩
      · exact Or.inr ⟨w, Or.inr hw, h⟩
    · rintro (hx | ⟨w, hw | hw, h⟩)
      · exact Or.inl (Or.inl hx)
      · subst hw; exact Or.inl (Or.inr h)
      · exact Or.inr ⟨w, hw, h⟩

/-! ## Claim C8 -/

/-- Counterexample to claim C8: with the synonym pair
`("pv", ["Solar", "solar"])` and the query `"pv panels"`, both `"Solar"` and
`"solar"` — equal up to case — appear among the expansion terms: the Python
`set` deduplicates by exact string equality, not case-insensitively. -/
theorem C8_counterexample :
    "Solar" ∈ expand_terms [("pv", ["Solar", "solar"])] [] "pv panels"
    ∧ "solar" ∈ expand_terms [("pv", ["Solar", "solar"])] [] "pv panels"
    ∧ "Solar" ≠ "solar"
    ∧ lowerL "Solar".data = lowerL "solar".data :=
  ⟨by decide, by decide, by decide, by decide⟩

/-- Claim C8 (amended): `expand_query` returns the original query first,
followed by the *distinct by exact string equality* added terms — the
synonyms of canonical terms occurring in the query, the canonical terms whose
synonyms occur, and the first three keywords of every vertical one of whose
keywords occurs — minus the query itself; the order of the added terms is the
iteration order of a Python `set` and therefore unspecified (the set is
deduplicated case-sensitively, not case-insensitively). -/
theorem C8_expand_amended (syns : List (String × List String))
    (verticals : List Vertical) (query : String) :
    (expand_terms syns verticals query).head? = some query
    ∧ ∀ t, t ∈ expand_terms syns verticals query ↔
        (t = query ∨
          (t ≠ query ∧
            ((∃ p ∈ syns, occursIn (lowerL p.1.data) (lowerL query.data) ∧ t ∈ p.2)
              ∨ (∃ p ∈ syns, t = p.1
                  ∧ ∃ s ∈ p.2, occursIn (lowerL s.data) (lowerL query.data))
              ∨ (∃ v ∈ verticals,
                  (∃ kw ∈ v.keywords, occursIn (lowerL kw.data) (lowerL query.data))
                    ∧ t ∈ v.keywords.take 3)))) := by
  constructor
  · rfl
  · intro t
    simp only [expand_terms, List.mem_cons, List.mem_filter]
    rw [mem_vertsFold, mem_synsFold]
    simp only [List.mem_singleton, decide_eq_true_eq]
    constructor
    · rintro (rfl | ⟨h, hne⟩)
      · exact Or.inl rfl
      · rcases h with (rfl | ⟨p, hp, h | h⟩) | ⟨v, hv, h⟩
        · exact absurd rfl hne
        · exact Or.inr ⟨hne, Or.inl ⟨p, hp, h.1, h.2⟩⟩
        · exact Or.inr ⟨hne, Or.inr (Or.inl ⟨p, hp, h.1, h.2⟩)⟩
        · exact Or.inr ⟨hne, Or.inr (Or.inr ⟨v, hv, h⟩)⟩
    · rintro (rfl | ⟨hne, h | h | h⟩)
      · exact Or.inl rfl
      · rcases h with ⟨p, hp, h1, h2⟩
        exact Or.inr ⟨Or.inl (Or.inr ⟨p, hp, Or.inl ⟨h1, h2⟩⟩), hne⟩
      · rcases h with ⟨p, hp, h1, h2⟩
        exact Or.inr ⟨Or.inl (Or.inr ⟨p, hp, Or.inr ⟨h1, h2⟩⟩), hne⟩
      · rcases h with ⟨v, hv, h1, h2⟩
        exact Or.inr ⟨Or.inr ⟨v, hv, h1, h2⟩, hne⟩

/-! ## Claim C4 -/

/-- Counterexample to claim C4: on an engine constructed with
`semantic_weight = 3/5` and the query `"similar to tesla"`, the engine state
between lines 167 and 183 of `search()` — the state retrieval and fusion run
against — carries `semantic_weight = 7/10 ≠ 3/5`: `search()` *does* assign
the engine's `semantic_weight` field during the call, and the fusion step
reads the weight from that shared field rather than receiving it as a
parameter. -/
theorem C4_counterexample :
    (searchMidState
        { semantic_weight := 3/5, faiss := ⟨none, []⟩,
          bm25 := ⟨none, [], []⟩, is_initialized := true }
        { query := "similar to tesla" }).semantic_weight = 7/10
    ∧ ({ semantic_weight := 3/5, faiss := ⟨none, []⟩,
          bm25 := ⟨none, [], []⟩, is_initialized := true } : EngineState).semantic_weight
        = 3/5
    ∧ ((7 : ℚ)/10) ≠ 3/5 := by
  refine ⟨?_, rfl, by norm_num⟩
  have hb : conceptual_indicators.any
      (fun i => occursIn i.data (lowerL (clean_query "similar to tesla").data)) = true := by
    decide
  simp [searchMidState, get_query_vector_weight, hb]

/-- Claim C4 (amended): `search()` stores the per-query weight computed by
`get_query_vector_weight(clean_query)` into the engine's shared
`semantic_weight` field before retrieval (the fusion step reads that field,
not a parameter), and restores the original value afterwards, so the state
returned by the call equals the entry state and the echoed `semantic_weight`
is the restored original — correct only in the absence of concurrent calls. -/
theorem C4_weight_mutation_amended (db : Int → Option Startup)
    (embed : String → List ℚ) (syns : List (String × List String))
    (verticals : List Vertical) (st : EngineState) (args : SearchArgs)
    (extracted : ExtractedFilters) :
    (searchMidState st args).semantic_weight =
        get_query_vector_weight (clean_query args.query)
    ∧ (searchMidState st args).faiss = st.faiss
    ∧ (searchMidState st args).bm25 = st.bm25
    ∧ (searchModel db embed syns verticals st args extracted).2 = st
    ∧ (searchModel db embed syns verticals st args extracted).1.semantic_weight =
        st.semantic_weight :=
  ⟨rfl, rfl, rfl, rfl, rfl⟩

/-! ## Claim C9 -/

/-- Counterexample to claim C9: rebuilding an engine whose indices cover
startup id 1 with a snapshot containing only startup id 2 produces the
observable state sequence below — its second element holds the *new* vector
index (ids `[2]`) together with the *old* keyword documents (`[["old"]]`),
a state that is neither the fully-old nor the fully-new snapshot, so the two
indices are not published in a single atomic swap. -/
theorem C9_counterexample :
    ((rebuildTrace (fun _ => [[1]]) (fun _ _ _ => []) (fun _ _ => [])
        { semantic_weight := 3/5,
          faiss := { index := some ⟨1, fun _ _ => []⟩, startup_ids := [1] },
          bm25 := { bm25 := some (fun _ => []), startup_ids := [1],
                    documents := [["old"]] },
          is_initialized := true }
        [{ id := 2, name := "Acme" }]).map
      (fun st => (st.faiss.startup_ids, st.bm25.documents))) =
      [([1], [["old"]]), ([2], [["old"]]), ([2], [["acme"]]), ([2], [["acme"]])]
    ∧ (([2], [["old"]]) : List Int × List (List String)) ≠ ([1], [["old"]])
    ∧ (([2], [["old"]]) : List Int × List (List String)) ≠ ([2], [["acme"]]) := by
  refine ⟨by decide, by decide, by decide⟩

/-- Claim C9 (amended): `rebuild_index` mutates the engine sequentially in
place, not atomically: given a non-empty snapshot, a concurrent reader can
observe, in order, the entry state; a state holding the newly built vector
index together with the old keyword index; a state with both new indices;
and finally the initialized flag set.  (With an empty snapshot the method
returns with the state unchanged.) -/
theorem C9_rebuild_amended (embedStartups : List Startup → List (List ℚ))
    (mkFaiss : List (List ℚ) → List ℚ → Nat → List (Int × ℚ))
    (mkBM25 : List (List String) → List String → List ℚ)
    (st : EngineState) (startups : List Startup) (h : startups ≠ []) :
    ∃ stMid stNew : EngineState,
      rebuildTrace embedStartups mkFaiss mkBM25 st startups =
        [st, stMid, stNew, { stNew with is_initialized := true }]
      ∧ stMid.faiss =
          faissBuild st.faiss (embedStartups startups) (startups.map Startup.id) mkFaiss
      ∧ stMid.bm25 = st.bm25
      ∧ stMid.semantic_weight = st.semantic_weight
      ∧ stNew.faiss = stMid.faiss
      ∧ stNew.bm25 = bm25Build st.bm25 startups mkBM25 := by
  refine ⟨{ st with
      faiss := (faissBuild st.faiss (embedStartups startups) (startups.map Startup.id) mkFaiss) },
    { st with
      faiss := (faissBuild st.faiss (embedStartups startups) (startups.map Startup.id) mkFaiss),
      bm25 := (bm25Build st.bm25 startups mkBM25) },
    ?_, rfl, rfl, rfl, rfl, rfl⟩
  simp only [rebuildTrace, if_neg h]

/-- Witness for the amended C9 at a concrete input. -/
theorem C9_rebuild_amended_witness :
    ∃ stMid stNew : EngineState,
      rebuildTrace (fun _ => [[1]]) (fun _ _ _ => []) (fun _ _ => [])
          { semantic_weight := 3/5, faiss := ⟨none, []⟩, bm25 := ⟨none, [], []⟩,
            is_initialized := false }
          [{ id := 2, name := "Acme" }] =
        [{ semantic_weight := 3/5, faiss := ⟨none, []⟩, bm25 := ⟨none, [], []⟩,
           is_initialized := false },
         stMid, stNew, { stNew with is_initialized := true }]
      ∧ stMid.faiss =
          faissBuild ⟨none, []⟩ [[1]] [2] (fun _ _ _ => [])
      ∧ stMid.bm25 = (⟨none, [], []⟩ : BM25State)
      ∧ stMid.semantic_weight = 3/5
      ∧ stNew.faiss = stMid.faiss
      ∧ stNew.bm25 = bm25Build ⟨none, [], []⟩ [{ id := 2, name := "Acme" }]
          (fun _ _ => []) :=
  C9_rebuild_amended (fun _ => [[1]]) (fun _ _ _ => []) (fun _ _ => []) _ _ (by decide)

/-! ## Claim C7 -/

/-- Claim C7: searching an unbuilt or empty vector index returns the empty
list (likewise for the keyword index); building from zero documents leaves
both indices unbuilt; and a full `search()` against such an engine returns
`total_results = 0` with an empty hit list, for every query and argument
set. -/
theorem C7_empty_index_resilience :
    (∀ (st : FaissState) (q : List ℚ) (k : Nat),
        (st.index = none ∨ ∃ ix, st.index = some ix ∧ ix.ntotal = 0) →
        faissSearch st q k = [])
    ∧ (∀ (st : BM25State) (q : String) (k : Nat),
        (st.bm25 = none ∨ st.documents = []) → bm25Search st q k = [])
    ∧ (∀ (ids : List Int) (mk : List (List ℚ) → List ℚ → Nat → List (Int × ℚ)),
        faissBuild ⟨none, []⟩ [] ids mk = (⟨none, []⟩ : FaissState))
    ∧ (∀ (mk : List (List String) → List String → List ℚ),
        (bm25Build ⟨none, [], []⟩ [] mk).bm25 = none)
    ∧ (∀ (db : Int → Option Startup) (embed : String → List ℚ)
          (syns : List (String × List String)) (verticals : List Vertical)
          (args : SearchArgs) (extracted : ExtractedFilters) (w : ℚ) (b : Bool),
        (searchModel db embed syns verticals
            { semantic_weight := w, faiss := ⟨none, []⟩, bm25 := ⟨none, [], []⟩,
              is_initialized := b } args extracted).1.total_results = 0
        ∧ (searchModel db embed syns verticals
            { semantic_weight := w, faiss := ⟨none, []⟩, bm25 := ⟨none, [], []⟩,
              is_initialized := b } args extracted).1.results = []) := by
  refine ⟨?_, ?_, ?_, ?_, ?_⟩
  · rintro st q k (h | ⟨ix, hix, hn⟩)
    · simp [faissSearch, h]
    · simp [faissSearch, hix, hn]
  · rintro st q k (h | h)
    · simp [bm25Search, h]
    · cases hb : st.bm25 with
      | none => simp [bm25Search, hb]
      | some model => simp [bm25Search, hb, h]
  · intro ids mk; rfl
  · intro mk; rfl
  · intro db embed syns verticals args extracted w b
    have hres : (searchModel db embed syns verticals
        { semantic_weight := w, faiss := ⟨none, []⟩, bm25 := ⟨none, [], []⟩,
          is_initialized := b } args extracted).1.results = [] := by
      simp only [searchModel, faissSearch, bm25Search, reciprocal_rank_fusion,
        addRanked, List.insertionSort, List.filterMap_nil, diversify, List.take_nil]
      simp
    have hlen : (searchModel db embed syns verticals
        { semantic_weight := w, faiss := ⟨none, []⟩, bm25 := ⟨none, [], []⟩,
          is_initialized := b } args extracted).1.total_results =
        (searchModel db embed syns verticals
        { semantic_weight := w, faiss := ⟨none, []⟩, bm25 := ⟨none, [], []⟩,
          is_initialized := b } args extracted).1.results.length := rfl
    refine ⟨?_, hres⟩
    rw [hlen, hres]
    rfl

/-- Witness for C7 at concrete inputs: an unbuilt vector index and an unbuilt
keyword index both answer with the empty candidate list. -/
theorem C7_empty_index_resilience_witness :
    faissSearch ⟨none, [1]⟩ [1] 5 = []
    ∧ bm25Search ⟨none, [], [["doc"]]⟩ "solar" 5 = [] :=
  ⟨C7_empty_index_resilience.1 ⟨none, [1]⟩ [1] 5 (Or.inl rfl),
    C7_empty_index_resilience.2.1 ⟨none, [], [["doc"]]⟩ "solar" 5 (Or.inl rfl)⟩

end ClimateSearch
